import Mathlib

/-!
Verification of the Discord DocsGPT relay bot (src/bot.py) against its
specification. The Python source is shallowly embedded: each Python function
that a claim mentions becomes a Lean definition with the same structure, and
external effects (the HTTP response, the MongoDB round trip, wall-clock time)
become explicit parameters or returned records.
-/

/-- One conversation turn, as stored in the internal history:
`{"role": ..., "content": ...}` (bot.py builds these dicts with both keys
always present). -/
structure Turn where
  role : String
  content : String
deriving DecidableEq, Repr

/-- One entry of the API-shaped history: `{"prompt": ..., "response": ...}`. -/
structure APIPair where
  prompt : String
  response : String
deriving DecidableEq, Repr

/-- Embedding of `format_history_for_api` (bot.py lines 195-221): the while
loop with index `i` advancing by 2 after emitting a pair and by 1 otherwise
becomes structural recursion on the list of messages. -/
def format_history_for_api : List Turn → List APIPair
  | [] => []
  | msg :: rest =>
    if msg.role = "user" then
      match rest with
      | next :: rest2 =>
        if next.role = "assistant" then
          { prompt := msg.content, response := next.content } ::
            format_history_for_api rest2
        else
          format_history_for_api (next :: rest2)
      | [] => []
    else
      format_history_for_api rest

/-- Python truthiness of an optional string (`if not X`): `None` and the
empty string are falsy, everything else truthy. -/
def str_truthy : Option String → Bool
  | none => false
  | some s => !s.isEmpty

/-- What `initialize_storage` (bot.py lines 41-72) decides at startup:
either the process is terminated (`exit(1)`) or a storage type is selected. -/
inductive StartupAction where
  | exitProcess (code : Nat)
  | useStorage (storage : String)
deriving DecidableEq, Repr

/-- Embedding of `initialize_storage` (bot.py lines 41-72). The configured
`STORAGE_TYPE`, the `MONGODB_URI` environment value and the outcome of the
MongoDB connection attempt (`connect_ok`) are parameters; the chosen action
is returned. With `STORAGE_TYPE = "mongodb"` and no URI the code logs and
calls `exit(1)`; a failed connection attempt instead falls back to
`"memory"`, as does an unrecognized storage type. -/
def initialize_storage (storage_type : String) (mongodb_uri : Option String)
    (connect_ok : Bool) : StartupAction :=
  if storage_type = "mongodb" then
    if !str_truthy mongodb_uri then
      StartupAction.exitProcess 1
    else if connect_ok then
      StartupAction.useStorage "mongodb"
    else
      StartupAction.useStorage "memory"
  else if storage_type = "memory" then
    StartupAction.useStorage "memory"
  else
    StartupAction.useStorage "memory"

/-- `max_history_len_pairs` (bot.py line 115): at most 10 complete
(user, assistant) pairs are retained. -/
def max_history_len_pairs : Nat := 10

/-- Embedding of `history[-(max_history_len_pairs * 2):]` (bot.py line 116):
the last 20 elements of the history (the whole history when it is shorter). -/
def limit_history (history : List Turn) : List Turn :=
  history.drop (history.length - max_history_len_pairs * 2)

/-- A Python runtime value as it can appear in the `user_info` dict. The
`pyObject` constructor stands for any value of a class outside
`(str, int, float, bool, list, dict, NoneType)` — e.g. a discord.py object —
tagged with its class name. Floats carry an opaque payload: no float
arithmetic happens in the code under verification. -/
inductive PyValue where
  | pyStr (s : String)
  | pyInt (n : Int)
  | pyFloat (bits : Nat)
  | pyBool (b : Bool)
  | pyNone
  | pyList (elems : List PyValue)
  | pyDict (entries : List (String × PyValue))
  | pyObject (cls : String)

/-- Embedding of the `isinstance(v, (str, int, float, bool, list, dict,
type(None)))` test (bot.py lines 126 and 151): a TOP-LEVEL type check only;
the contents of lists and dicts are not inspected. -/
def is_serializable_type : PyValue → Bool
  | PyValue.pyObject _ => false
  | _ => true

/-- Embedding of the dict comprehension
`{k: v for k, v in user_info.items() if isinstance(v, (...))}`
(bot.py lines 126 and 151). -/
def filter_user_info (info : List (String × PyValue)) : List (String × PyValue) :=
  info.filter fun kv => is_serializable_type kv.2

mutual

/-- A value is JSON-serializable all the way down: a primitive, or a
list/dict all of whose nested values are. This is the property the spec
ascribes to the stored `userInfo` ("nested primitive collections"). -/
def isJsonLike : PyValue → Bool
  | PyValue.pyStr _ => true
  | PyValue.pyInt _ => true
  | PyValue.pyFloat _ => true
  | PyValue.pyBool _ => true
  | PyValue.pyNone => true
  | PyValue.pyList elems => isJsonLikeList elems
  | PyValue.pyDict entries => isJsonLikeEntries entries
  | PyValue.pyObject _ => false

/-- All elements of a list of Python values are JSON-serializable. -/
def isJsonLikeList : List PyValue → Bool
  | [] => true
  | v :: vs => isJsonLike v && isJsonLikeList vs

/-- All values of a Python dict are JSON-serializable. -/
def isJsonLikeEntries : List (String × PyValue) → Bool
  | [] => true
  | kv :: kvs => isJsonLike kv.2 && isJsonLikeEntries kvs

end

/-- Python truthiness of an optional dict (`if user_info:`): `None` and the
empty dict are falsy. -/
def dict_truthy : Option (List (String × PyValue)) → Bool
  | none => false
  | some d => !d.isEmpty

/-- One record of the in-memory store: a Python dict whose keys may each be
absent (the dict starts out as `{}` for a new user and is merged into with
`.update`, bot.py lines 141-152), hence every field is an `Option`. -/
structure MemRecord where
  history : Option (List Turn)
  conversation_id : Option (Option String)
  user_info : Option (List (String × PyValue))
  last_updated : Option Nat

/-- Embedding of the in-memory branch of `save_user_data` (bot.py lines
141-153). The store is a map from user-id string to record; `now` stands for
`datetime.datetime.now(...)`. The existing record (or a fresh empty dict) is
merged with the new `history`, `conversation_id` and `last_updated`; the
`user_info` key is set only when `user_info` is truthy, and then to the
filtered dict. -/
def save_user_data_mem (store : String → Option MemRecord) (user_id : String)
    (history : List Turn) (conversation_id : Option String)
    (user_info : Option (List (String × PyValue))) (now : Nat) :
    String → Option MemRecord :=
  let old := (store user_id).getD ⟨none, none, none, none⟩
  let merged : MemRecord :=
    { old with
      history := some (limit_history history)
      conversation_id := some conversation_id
      last_updated := some now }
  let merged : MemRecord :=
    if dict_truthy user_info then
      { merged with user_info := some (filter_user_info (user_info.getD [])) }
    else merged
  fun k => if k = user_id then some merged else store k

/-- The `$set` document of the MongoDB branch of `save_user_data` (bot.py
lines 118-137), upserted by `update_one`: `conversation_history` and
`conversation_id` always, `user_info` only when truthy (then filtered), and
`$currentDate` sets `last_updated` server-side. -/
structure MongoUpdateDoc where
  conversation_history : List Turn
  conversation_id : Option String
  user_info : Option (List (String × PyValue))
  set_last_updated : Bool

/-- Embedding of the MongoDB branch of `save_user_data` (bot.py lines
118-137): the update document the upsert sends. -/
def save_user_data_mongo_update (history : List Turn)
    (conversation_id : Option String)
    (user_info : Option (List (String × PyValue))) : MongoUpdateDoc :=
  { conversation_history := limit_history history
    conversation_id := conversation_id
    user_info :=
      if dict_truthy user_info then some (filter_user_info (user_info.getD []))
      else none
    set_last_updated := true }

/-- C1: the Transcript Formatter scans left to right: a user turn immediately
followed by an assistant turn emits the `{prompt, response}` pair and the scan
advances past both; a user turn not followed by an assistant turn (including a
trailing unpaired user turn) emits nothing and advances by one; a turn whose
role is not "user" emits nothing and advances by one. These equations
determine the output and show pairs appear in input order. -/
theorem c1_format_history_scan (msg next : Turn) (rest : List Turn) :
    (msg.role = "user" → next.role = "assistant" →
      format_history_for_api (msg :: next :: rest) =
        { prompt := msg.content, response := next.content } ::
          format_history_for_api rest) ∧
    (msg.role = "user" → ¬ next.role = "assistant" →
      format_history_for_api (msg :: next :: rest) =
        format_history_for_api (next :: rest)) ∧
    (msg.role = "user" → format_history_for_api [msg] = []) ∧
    (¬ msg.role = "user" →
      format_history_for_api (msg :: rest) = format_history_for_api rest) ∧
    format_history_for_api [] = [] := by
  refine ⟨?_, ?_, ?_, ?_, rfl⟩
  · intro hu ha
    simp [format_history_for_api, hu, ha]
  · intro hu ha
    simp [format_history_for_api, hu, ha]
  · intro hu
    simp [format_history_for_api, hu]
  · intro hu
    cases rest with
    | nil => simp [format_history_for_api, hu]
    | cons t ts => simp [format_history_for_api, hu]

/-- C2: on every write, in both the volatile and the durable variant, only
the suffix of the history is persisted: a history of N complete
(user, assistant) pairs with N > 10 is stored as exactly its last 10 pairs
(20 turns), the oldest turns dropped. -/
theorem c2_history_cap (store : String → Option MemRecord) (user_id : String)
    (history : List Turn) (conversation_id : Option String)
    (user_info : Option (List (String × PyValue))) (now : Nat) (N : Nat)
    (hN : 10 < N) (hlen : history.length = 2 * N) :
    limit_history history = history.drop (history.length - 20) ∧
    (limit_history history).length = 20 ∧
    List.IsSuffix (limit_history history) history ∧
    (save_user_data_mongo_update history conversation_id
        user_info).conversation_history
      = history.drop (history.length - 20) ∧
    ((save_user_data_mem store user_id history conversation_id user_info now)
        user_id).bind MemRecord.history
      = some (history.drop (history.length - 20)) := by
  refine ⟨rfl, ?_, ?_, rfl, ?_⟩
  · simp [limit_history, max_history_len_pairs, hlen]
    omega
  · exact List.drop_suffix _ _
  · simp only [save_user_data_mem]
    cases h : dict_truthy user_info <;>
      simp [h, limit_history, max_history_len_pairs]

/-- C2 witness: a concrete history of 11 complete pairs (22 turns) is stored
as its last 20 turns in both variants. -/
theorem c2_history_cap_witness :
    limit_history (List.replicate 22 ⟨"user", "q"⟩)
      = (List.replicate 22 ⟨"user", "q"⟩).drop
          ((List.replicate 22 (Turn.mk "user" "q")).length - 20) ∧
    (limit_history (List.replicate 22 ⟨"user", "q"⟩)).length = 20 ∧
    List.IsSuffix (limit_history (List.replicate 22 ⟨"user", "q"⟩))
      (List.replicate 22 ⟨"user", "q"⟩) ∧
    (save_user_data_mongo_update (List.replicate 22 ⟨"user", "q"⟩) none
        none).conversation_history
      = (List.replicate 22 (Turn.mk "user" "q")).drop
          ((List.replicate 22 (Turn.mk "user" "q")).length - 20) ∧
    ((save_user_data_mem (fun _ => none) "u" (List.replicate 22 ⟨"user", "q"⟩)
        none none 0) "u").bind MemRecord.history
      = some ((List.replicate 22 (Turn.mk "user" "q")).drop
          ((List.replicate 22 (Turn.mk "user" "q")).length - 20)) :=
  c2_history_cap (fun _ => none) "u" (List.replicate 22 ⟨"user", "q"⟩) none
    none 0 11 (by decide) (by simp)

/-- C9 counterexample: a `user_info` field whose value is a list containing a
non-serializable object passes the shallow `isinstance` filter unchanged, so
a non-serializable value does appear nested inside the stored userInfo — the
claim that no non-serializable value ever appears anywhere is false. -/
theorem c9_counterexample_nested :
    filter_user_info [("roles", PyValue.pyList [PyValue.pyObject "discord.Role"])]
      = [("roles", PyValue.pyList [PyValue.pyObject "discord.Role"])] ∧
    isJsonLike (PyValue.pyList [PyValue.pyObject "discord.Role"]) = false ∧
    (save_user_data_mongo_update [] none
        (some [("roles", PyValue.pyList [PyValue.pyObject "discord.Role"])])).user_info
      = some [("roles", PyValue.pyList [PyValue.pyObject "discord.Role"])] := by
  refine ⟨rfl, ?_, rfl⟩
  simp [isJsonLike, isJsonLikeList]

/-- C9 (amended): the `isinstance` filter is a top-level type check: the
stored userInfo keeps exactly the fields whose top-level value is of a
serializable type (str, int, float, bool, list, dict, None), in order, and
drops the rest; the contents of kept lists and dicts are not inspected. Both
variants store the same filtered dict when `user_info` is non-empty. -/
theorem c9_filter_shallow (store : String → Option MemRecord) (user_id : String)
    (history : List Turn) (conversation_id : Option String) (now : Nat)
    (info : List (String × PyValue)) (hne : info ≠ []) :
    (∀ kv ∈ filter_user_info info, is_serializable_type kv.2 = true) ∧
    (∀ kv ∈ info, is_serializable_type kv.2 = true → kv ∈ filter_user_info info) ∧
    (∀ kv ∈ info, is_serializable_type kv.2 = false → kv ∉ filter_user_info info) ∧
    List.Sublist (filter_user_info info) info ∧
    (save_user_data_mongo_update history conversation_id (some info)).user_info
      = some (filter_user_info info) ∧
    ((save_user_data_mem store user_id history conversation_id (some info) now)
        user_id).bind MemRecord.user_info
      = some (filter_user_info info) := by
  have htruthy : dict_truthy (some info) = true := by
    simp [dict_truthy, List.isEmpty_iff, hne]
  have hmemiff : ∀ kv : String × PyValue,
      kv ∈ filter_user_info info ↔ kv ∈ info ∧ is_serializable_type kv.2 = true := by
    intro kv
    simp [filter_user_info, List.mem_filter]
  refine ⟨?_, ?_, ?_, List.filter_sublist info, ?_, ?_⟩
  · intro kv hkv
    exact ((hmemiff kv).mp hkv).2
  · intro kv hkv hser
    exact (hmemiff kv).mpr ⟨hkv, hser⟩
  · intro kv _ hser hmem
    have h2 := ((hmemiff kv).mp hmem).2
    rw [hser] at h2
    exact Bool.false_ne_true h2
  · simp [save_user_data_mongo_update, htruthy]
  · simp [save_user_data_mem, htruthy]

/-- C9 witness: on a concrete two-field userInfo whose second field holds a
raw discord Member object, the first field is kept and the second dropped. -/
theorem c9_filter_shallow_witness :
    (∀ kv ∈ filter_user_info
        [("name", PyValue.pyStr "alice"), ("member", PyValue.pyObject "discord.Member")],
      is_serializable_type kv.2 = true) ∧
    (∀ kv ∈ [("name", PyValue.pyStr "alice"), ("member", PyValue.pyObject "discord.Member")],
      is_serializable_type kv.2 = true →
        kv ∈ filter_user_info
          [("name", PyValue.pyStr "alice"), ("member", PyValue.pyObject "discord.Member")]) ∧
    (∀ kv ∈ [("name", PyValue.pyStr "alice"), ("member", PyValue.pyObject "discord.Member")],
      is_serializable_type kv.2 = false →
        kv ∉ filter_user_info
          [("name", PyValue.pyStr "alice"), ("member", PyValue.pyObject "discord.Member")]) ∧
    List.Sublist
      (filter_user_info
        [("name", PyValue.pyStr "alice"), ("member", PyValue.pyObject "discord.Member")])
      [("name", PyValue.pyStr "alice"), ("member", PyValue.pyObject "discord.Member")] ∧
    (save_user_data_mongo_update [] none
        (some [("name", PyValue.pyStr "alice"),
               ("member", PyValue.pyObject "discord.Member")])).user_info
      = some (filter_user_info
          [("name", PyValue.pyStr "alice"), ("member", PyValue.pyObject "discord.Member")]) ∧
    ((save_user_data_mem (fun _ => none) "u" [] none
        (some [("name", PyValue.pyStr "alice"),
               ("member", PyValue.pyObject "discord.Member")]) 0) "u").bind
        MemRecord.user_info
      = some (filter_user_info
          [("name", PyValue.pyStr "alice"), ("member", PyValue.pyObject "discord.Member")]) :=
  c9_filter_shallow (fun _ => none) "u" [] none 0
    [("name", PyValue.pyStr "alice"), ("member", PyValue.pyObject "discord.Member")]
    (List.cons_ne_nil _ _)

/-- C3 counterexample: with storage kind "mongodb" and no connection string,
`initialize_storage` terminates the process with exit status 1; it does not
degrade to the volatile in-memory variant. -/
theorem c3_counterexample_exit :
    initialize_storage "mongodb" none true = StartupAction.exitProcess 1 ∧
    initialize_storage "mongodb" none true ≠ StartupAction.useStorage "memory" := by
  decide

/-- C3 (amended): with storage kind "mongodb", a missing (or empty)
connection string makes initialization exit the process with status 1; the
fall back to the volatile variant happens only when the connection string is
set and the connection attempt itself fails. -/
theorem c3_missing_uri_exits (mongodb_uri : Option String) (connect_ok : Bool) :
    (str_truthy mongodb_uri = false →
      initialize_storage "mongodb" mongodb_uri connect_ok =
        StartupAction.exitProcess 1) ∧
    (str_truthy mongodb_uri = true → connect_ok = false →
      initialize_storage "mongodb" mongodb_uri connect_ok =
        StartupAction.useStorage "memory") := by
  constructor
  · intro h
    simp [initialize_storage, h]
  · intro h hok
    simp [initialize_storage, h, hok]

/-- The JSON body the API call POSTs (bot.py lines 241-246). The history
travels as a string-encoded JSON array; the embedding carries the formatted
pair list it serializes. -/
structure ApiPayload where
  question : String
  api_key : String
  history : List APIPair
  conversation_id : Option String
deriving DecidableEq, Repr

/-- The body of the HTTP response as `resp.json()` sees it: either not
parseable as the expected structure (`invalid`, carrying the raw text), or a
JSON object with optional `answer` and `conversation_id` fields. A present
`conversation_id` holding JSON null is `some none`. -/
inductive ApiBody where
  | invalid (raw : String)
  | json (answer : Option String) (conversation_id : Option (Option String))
deriving DecidableEq, Repr

/-- What the single `session.post` attempt produces: an HTTP response with a
status and body, or one of the exception classes `generate_answer` catches
(bot.py lines 274-286). -/
inductive HttpOutcome where
  | response (status : Nat) (body : ApiBody)
  | connectorError
  | clientError
  | unexpectedError
deriving DecidableEq, Repr

/-- The result of `generate_answer`: the `{"answer", "conversation_id"}` dict
it returns, plus the POST it issued (`none` when no network call was made). -/
structure GenResult where
  answer : String
  conversation_id : Option String
  request : Option ApiPayload
deriving DecidableEq, Repr

/-- `default_error_msg` (bot.py line 251). -/
def default_error_msg : String :=
  "Sorry, I couldn't get an answer from the backend service."

/-- Embedding of `generate_answer` (bot.py lines 226-286). The configured
`API_KEY` and the outcome of the single HTTP POST are parameters. With a
falsy API key the function returns at once, issuing no request; otherwise
the response is handled exactly as the code does: status other than 200
yields a failure answer carrying the status; a 200 body that parses yields
its `answer` (generic failure string when absent) and its `conversation_id`
(the original when absent); a 200 body that does not parse yields the
invalid-response-format failure; each caught exception class yields its own
failure answer. All failure paths keep the original conversation id. -/
def generate_answer (api_key : Option String) (question : String)
    (messages : List Turn) (conversation_id : Option String)
    (http : HttpOutcome) : GenResult :=
  if !str_truthy api_key then
    { answer := "Error: Backend API key is not configured."
      conversation_id := conversation_id
      request := none }
  else
    let payload : ApiPayload :=
      { question := question
        api_key := (api_key.getD "")
        history := format_history_for_api messages
        conversation_id := conversation_id }
    match http with
    | HttpOutcome.response status body =>
      if status ≠ 200 then
        { answer := default_error_msg ++ " (Error: " ++ toString status ++ ")"
          conversation_id := conversation_id
          request := some payload }
      else
        match body with
        | ApiBody.json answer conv =>
          { answer := answer.getD default_error_msg
            conversation_id := conv.getD conversation_id
            request := some payload }
        | ApiBody.invalid _ =>
          { answer := default_error_msg ++ " (Invalid Response Format)"
            conversation_id := conversation_id
            request := some payload }
    | HttpOutcome.connectorError =>
      { answer := default_error_msg ++ " (Network Error)"
        conversation_id := conversation_id
        request := some payload }
    | HttpOutcome.clientError =>
      { answer := default_error_msg ++ " (Client Error)"
        conversation_id := conversation_id
        request := some payload }
    | HttpOutcome.unexpectedError =>
      { answer := default_error_msg ++ " (Unexpected Error)"
        conversation_id := conversation_id
        request := some payload }

/-- C4: with no API key configured, `generate_answer` returns immediately
with the configuration-error answer, the conversation id unchanged, and no
network request issued — for every question, history, conversation id and
would-be network outcome. -/
theorem c4_no_api_key (api_key : Option String) (question : String)
    (messages : List Turn) (conversation_id : Option String)
    (http : HttpOutcome) (hkey : str_truthy api_key = false) :
    generate_answer api_key question messages conversation_id http =
      { answer := "Error: Backend API key is not configured."
        conversation_id := conversation_id
        request := none } := by
  simp [generate_answer, hkey]

/-- C4 witness: concretely, with the API key unset, a question, a one-turn
history, a stored conversation id and a server that would have answered. -/
theorem c4_no_api_key_witness :
    generate_answer none "what is DocsGPT?" [⟨"user", "hi"⟩] (some "conv-7")
        (HttpOutcome.response 200 (ApiBody.json (some "an answer") none)) =
      { answer := "Error: Backend API key is not configured."
        conversation_id := some "conv-7"
        request := none } :=
  c4_no_api_key none "what is DocsGPT?" [⟨"user", "hi"⟩] (some "conv-7")
    (HttpOutcome.response 200 (ApiBody.json (some "an answer") none)) rfl

/-- C5: a response with a non-2xx status never raises: the returned answer
is a failure string that contains the HTTP status code, and the returned
conversation id is the original one. -/
theorem c5_non_2xx_failure (api_key : Option String) (question : String)
    (messages : List Turn) (conversation_id : Option String) (status : Nat)
    (body : ApiBody) (hkey : str_truthy api_key = true)
    (hstatus : status < 200 ∨ 300 ≤ status) :
    (∃ pre post,
      (generate_answer api_key question messages conversation_id
          (HttpOutcome.response status body)).answer
        = pre ++ toString status ++ post) ∧
    (generate_answer api_key question messages conversation_id
        (HttpOutcome.response status body)).conversation_id
      = conversation_id := by
  have hne : status ≠ 200 := by omega
  refine ⟨⟨default_error_msg ++ " (Error: ", ")", ?_⟩, ?_⟩ <;>
    simp [generate_answer, hkey, hne]

/-- C5 witness: a simulated HTTP 500 with an unparseable body yields a
failure answer containing "500" and keeps the original conversation id. -/
theorem c5_non_2xx_failure_witness :
    (∃ pre post,
      (generate_answer (some "key") "q" [] (some "conv-1")
          (HttpOutcome.response 500 (ApiBody.invalid "Internal Server Error"))).answer
        = pre ++ toString 500 ++ post) ∧
    (generate_answer (some "key") "q" [] (some "conv-1")
        (HttpOutcome.response 500 (ApiBody.invalid "Internal Server Error"))).conversation_id
      = some "conv-1" :=
  c5_non_2xx_failure (some "key") "q" [] (some "conv-1") 500
    (ApiBody.invalid "Internal Server Error") rfl (Or.inr (by omega))

/-- C6 counterexample: the code branches on `resp.status != 200`, not on the
2xx range. A 201 response whose body parses fine is treated as a failure:
the answer is the status-failure string, not the body's `answer`, and the
body's `conversation_id` does not replace the stored one. -/
theorem c6_counterexample_201 :
    (generate_answer (some "key") "q" [] (some "orig")
        (HttpOutcome.response 201 (ApiBody.json (some "hi") (some (some "new"))))).answer
      ≠ "hi" ∧
    (generate_answer (some "key") "q" [] (some "orig")
        (HttpOutcome.response 201 (ApiBody.json (some "hi") (some (some "new"))))).conversation_id
      = some "orig" ∧
    (generate_answer (some "key") "q" [] (some "orig")
        (HttpOutcome.response 201 (ApiBody.json (some "hi") (some (some "new"))))).answer
      = default_error_msg ++ " (Error: " ++ toString 201 ++ ")" := by
  refine ⟨?_, rfl, rfl⟩
  decide

/-- C6 (amended): for a response with status exactly 200 whose body parses
as the expected structure, `generate_answer` returns the body's `answer`
field (the generic failure string when absent) and the body's
`conversation_id` field, which replaces the stored conversation id (present
null replaces it with null; an absent field leaves the original). -/
theorem c6_success_fields (api_key : Option String) (question : String)
    (messages : List Turn) (conversation_id : Option String)
    (answer : Option String) (conv : Option (Option String))
    (hkey : str_truthy api_key = true) :
    (∀ a, answer = some a →
      (generate_answer api_key question messages conversation_id
          (HttpOutcome.response 200 (ApiBody.json answer conv))).answer = a) ∧
    (answer = none →
      (generate_answer api_key question messages conversation_id
          (HttpOutcome.response 200 (ApiBody.json answer conv))).answer
        = default_error_msg) ∧
    (∀ c, conv = some c →
      (generate_answer api_key question messages conversation_id
          (HttpOutcome.response 200 (ApiBody.json answer conv))).conversation_id = c) ∧
    (conv = none →
      (generate_answer api_key question messages conversation_id
          (HttpOutcome.response 200 (ApiBody.json answer conv))).conversation_id
        = conversation_id) := by
  refine ⟨?_, ?_, ?_, ?_⟩ <;> intro h <;>
    simp_all [generate_answer, hkey]

/-- C6 witness: a 200 response carrying both fields replaces the stored
conversation id and surfaces the body's answer. -/
theorem c6_success_fields_witness :
    (∀ a, (some "the answer" : Option String) = some a →
      (generate_answer (some "key") "q" [] (some "orig")
          (HttpOutcome.response 200
            (ApiBody.json (some "the answer") (some (some "new"))))).answer = a) ∧
    ((some "the answer" : Option String) = none →
      (generate_answer (some "key") "q" [] (some "orig")
          (HttpOutcome.response 200
            (ApiBody.json (some "the answer") (some (some "new"))))).answer
        = default_error_msg) ∧
    (∀ c, (some (some "new") : Option (Option String)) = some c →
      (generate_answer (some "key") "q" [] (some "orig")
          (HttpOutcome.response 200
            (ApiBody.json (some "the answer") (some (some "new"))))).conversation_id = c) ∧
    ((some (some "new") : Option (Option String)) = none →
      (generate_answer (some "key") "q" [] (some "orig")
          (HttpOutcome.response 200
            (ApiBody.json (some "the answer") (some (some "new"))))).conversation_id
        = some "orig") :=
  c6_success_fields (some "key") "q" [] (some "orig") (some "the answer")
    (some (some "new")) rfl

/-- C7 counterexample: a 201 response whose body fails to parse does not get
the invalid-response-format answer — the `status != 200` branch runs first
and reports the status-failure string instead. -/
theorem c7_counterexample_201 :
    (generate_answer (some "key") "q" [] (some "orig")
        (HttpOutcome.response 201 (ApiBody.invalid "not json"))).answer
      ≠ default_error_msg ++ " (Invalid Response Format)" ∧
    (generate_answer (some "key") "q" [] (some "orig")
        (HttpOutcome.response 201 (ApiBody.invalid "not json"))).answer
      = default_error_msg ++ " (Error: " ++ toString 201 ++ ")" := by
  refine ⟨?_, rfl⟩
  decide

/-- C7 (amended): for a response with status exactly 200 whose body fails to
parse as the expected structure, `generate_answer` returns the
invalid-response-format failure answer and keeps the original conversation
id. -/
theorem c7_invalid_format (api_key : Option String) (question : String)
    (messages : List Turn) (conversation_id : Option String) (raw : String)
    (hkey : str_truthy api_key = true) :
    (generate_answer api_key question messages conversation_id
        (HttpOutcome.response 200 (ApiBody.invalid raw))).answer
      = default_error_msg ++ " (Invalid Response Format)" ∧
    (generate_answer api_key question messages conversation_id
        (HttpOutcome.response 200 (ApiBody.invalid raw))).conversation_id
      = conversation_id := by
  constructor <;> simp [generate_answer, hkey]

/-- C7 witness: a concrete 200 response whose body is an HTML error page. -/
theorem c7_invalid_format_witness :
    (generate_answer (some "key") "q" [] (some "conv-2")
        (HttpOutcome.response 200 (ApiBody.invalid "<html>oops</html>"))).answer
      = default_error_msg ++ " (Invalid Response Format)" ∧
    (generate_answer (some "key") "q" [] (some "conv-2")
        (HttpOutcome.response 200 (ApiBody.invalid "<html>oops</html>"))).conversation_id
      = some "conv-2" :=
  c7_invalid_format (some "key") "q" [] (some "conv-2") "<html>oops</html>" rfl

/-- The characters Python's `str.lstrip()` removes: every character for
which `str.isspace()` is true. CPython's exact set: U+0009-U+000D (tab,
newline, vertical tab, form feed, carriage return), U+001C-U+001F (the
file/group/record/unit separators), U+0020 (space), U+0085 (next line),
U+00A0 (no-break space), U+1680, U+2000-U+200A, U+2028, U+2029, U+202F,
U+205F and U+3000. -/
def isPySpace (c : Char) : Bool :=
  (9 ≤ c.toNat && c.toNat ≤ 13) || (28 ≤ c.toNat && c.toNat ≤ 32) ||
    c.toNat == 0x85 || c.toNat == 0xA0 || c.toNat == 0x1680 ||
    (0x2000 ≤ c.toNat && c.toNat ≤ 0x200A) ||
    c.toNat == 0x2028 || c.toNat == 0x2029 || c.toNat == 0x202F ||
    c.toNat == 0x205F || c.toNat == 0x3000

/-- The index of the last occurrence of `c` in `l`, if any. -/
def lastIdxOf : List Char → Char → Option Nat
  | [], _ => none
  | a :: as, c =>
    match lastIdxOf as c with
    | some i => some (i + 1)
    | none => if a = c then some 0 else none

/-- Embedding of `text.rindex(char, 0, max_length)` (bot.py line 176): the
highest index below `m` (and below the length) where `c` occurs; `none`
models the `ValueError` of a character that does not occur there. -/
def rindex (text : List Char) (c : Char) (m : Nat) : Option Nat :=
  lastIdxOf (text.take m) c

/-- `max` over optional indices, `none` modelling Python's `-1` sentinel. -/
def omax : Option Nat → Option Nat → Option Nat
  | none, b => b
  | some a, none => some a
  | some a, some b => some (max a b)

/-- The `split_index` computation of `chunk_string` (bot.py lines 173-179):
the best of the last newline and the last space strictly left of `m`. -/
def splitIdx (text : List Char) (m : Nat) : Option Nat :=
  omax (rindex text '\n' m) (rindex text ' ' m)

/-- The `while len(text) > max_length` loop of `chunk_string` (bot.py lines
171-189), fuelled: each iteration appends `text[:split_index]` (forcing
`split_index = max_length` when no break char was found) and continues with
`text[split_index:].lstrip()`; the final non-empty remainder is appended.
A fuel of `text.length` always suffices when `max_length ≥ 1`, because every
iteration shortens the text. -/
def chunk_go : Nat → List Char → Nat → List (List Char)
  | 0, text, max_length =>
    if text.length ≤ max_length then (if text.isEmpty then [] else [text])
    else [text]
  | fuel + 1, text, max_length =>
    if text.length ≤ max_length then (if text.isEmpty then [] else [text])
    else
      let split_index := (splitIdx text max_length).getD max_length
      text.take split_index ::
        chunk_go fuel ((text.drop split_index).dropWhile isPySpace) max_length

/-- Embedding of `chunk_string` (bot.py lines 168-189) on the text as a
character list (the bot calls it with the Discord limit, 2000). -/
def chunk_string (text : List Char) (max_length : Nat) : List (List Char) :=
  chunk_go text.length text max_length

/-- A character absent from a list has no last index in it. -/
theorem lastIdxOf_eq_none {l : List Char} {c : Char} (h : ∀ a ∈ l, a ≠ c) :
    lastIdxOf l c = none := by
  induction l with
  | nil => rfl
  | cons a as ih =>
    have ha : a ≠ c := h a (by simp)
    have has : lastIdxOf as c = none := ih fun x hx => h x (by simp [hx])
    simp [lastIdxOf, has, ha]

/-- When the head matches and the tail has no occurrence, the last index
is 0. -/
theorem lastIdxOf_cons_self {c : Char} {as : List Char}
    (h : lastIdxOf as c = none) : lastIdxOf (c :: as) c = some 0 := by
  simp [lastIdxOf, h]

/-- A found last index is inside the list. -/
theorem lastIdxOf_lt_length {l : List Char} {c : Char} {i : Nat}
    (h : lastIdxOf l c = some i) : i < l.length := by
  induction l generalizing i with
  | nil => simp [lastIdxOf] at h
  | cons a as ih =>
    cases hr : lastIdxOf as c with
    | some j =>
      rw [lastIdxOf, hr] at h
      have : j + 1 = i := by simpa using h
      have := ih hr
      simp
      omega
    | none =>
      rw [lastIdxOf, hr] at h
      by_cases hac : a = c
      · rw [if_pos hac] at h
        have : (0 : Nat) = i := by simpa using h
        simp
        omega
      · rw [if_neg hac] at h
        simp at h

/-- A last index of 0 means the head is the sought character. -/
theorem lastIdxOf_zero_head {l : List Char} {c : Char}
    (h : lastIdxOf l c = some 0) : l.head? = some c := by
  cases l with
  | nil => simp [lastIdxOf] at h
  | cons a as =>
    cases hr : lastIdxOf as c with
    | some j =>
      rw [lastIdxOf, hr] at h
      simp at h
    | none =>
      rw [lastIdxOf, hr] at h
      by_cases hac : a = c
      · simp [hac]
      · rw [if_neg hac] at h
        simp at h

/-- A found `rindex` is below both the cut-off and the length. -/
theorem rindex_lt {text : List Char} {c : Char} {m i : Nat}
    (h : rindex text c m = some i) : i < m ∧ i < text.length := by
  have := lastIdxOf_lt_length h
  rw [List.length_take] at this
  omega

/-- When neither break character occurs left of the cut-off, no split index
is found. -/
theorem splitIdx_eq_none {text : List Char} {m : Nat}
    (h : ∀ a ∈ text.take m, a ≠ '\n' ∧ a ≠ ' ') : splitIdx text m = none := by
  have h1 : rindex text '\n' m = none := lastIdxOf_eq_none fun a ha => (h a ha).1
  have h2 : rindex text ' ' m = none := lastIdxOf_eq_none fun a ha => (h a ha).2
  simp [splitIdx, h1, h2, omax]

/-- A found split index is below both the cut-off and the length. -/
theorem splitIdx_lt {text : List Char} {m i : Nat}
    (h : splitIdx text m = some i) : i < m ∧ i < text.length := by
  unfold splitIdx at h
  cases h1 : rindex text '\n' m with
  | none =>
    cases h2 : rindex text ' ' m with
    | none =>
      rw [h1, h2] at h
      simp [omax] at h
    | some k =>
      rw [h1, h2] at h
      have : k = i := by simpa [omax] using h
      subst this
      exact rindex_lt h2
  | some j =>
    cases h2 : rindex text ' ' m with
    | none =>
      rw [h1, h2] at h
      have : j = i := by simpa [omax] using h
      subst this
      exact rindex_lt h1
    | some k =>
      rw [h1, h2] at h
      have : max j k = i := by simpa [omax] using h
      have hj := rindex_lt h1
      have hk := rindex_lt h2
      omega

/-- A split index of 0 means the text starts with a break character. -/
theorem splitIdx_zero_head {text : List Char} {m : Nat}
    (h : splitIdx text m = some 0) :
    text.head? = some '\n' ∨ text.head? = some ' ' := by
  have hhead : ∀ c : Char, rindex text c m = some 0 → text.head? = some c := by
    intro c hr
    have := lastIdxOf_zero_head hr
    cases text with
    | nil => simp at this
    | cons a as =>
      cases m with
      | zero => simp [rindex, lastIdxOf] at hr
      | succ k => simpa using this
  unfold splitIdx at h
  cases h1 : rindex text '\n' m with
  | none =>
    cases h2 : rindex text ' ' m with
    | none =>
      rw [h1, h2] at h
      simp [omax] at h
    | some k =>
      rw [h1, h2] at h
      have : k = 0 := by simpa [omax] using h
      exact Or.inr (hhead ' ' (this ▸ h2))
  | some j =>
    cases h2 : rindex text ' ' m with
    | none =>
      rw [h1, h2] at h
      have : j = 0 := by simpa [omax] using h
      exact Or.inl (hhead '\n' (this ▸ h1))
    | some k =>
      rw [h1, h2] at h
      have : max j k = 0 := by simpa [omax] using h
      have : j = 0 := by omega
      exact Or.inl (hhead '\n' (this ▸ h1))

/-- Unfolding of `chunk_go` when the remaining text already fits. -/
theorem chunk_go_base (fuel : Nat) (text : List Char) (m : Nat)
    (h : text.length ≤ m) :
    chunk_go fuel text m = if text.isEmpty then [] else [text] := by
  cases fuel <;> simp [chunk_go, h]

/-- Unfolding of one loop iteration of `chunk_go`. -/
theorem chunk_go_succ (fuel : Nat) (text : List Char) (m : Nat)
    (h : m < text.length) :
    chunk_go (fuel + 1) text m =
      text.take ((splitIdx text m).getD m) ::
        chunk_go fuel
          ((text.drop ((splitIdx text m).getD m)).dropWhile isPySpace) m := by
  rw [chunk_go, if_neg (by omega)]

/-- A list none of whose members is stripped is unchanged by `lstrip`. -/
theorem dropWhile_eq_self_of_no_space {l : List Char}
    (h : ∀ a ∈ l, isPySpace a = false) : l.dropWhile isPySpace = l := by
  cases l with
  | nil => rfl
  | cons a as => simp [List.dropWhile, h a (by simp)]

/-- A list all of whose members are stripped becomes empty under `lstrip`. -/
theorem dropWhile_eq_nil_of_all_space {l : List Char}
    (h : ∀ a ∈ l, isPySpace a = true) : l.dropWhile isPySpace = [] := by
  induction l with
  | nil => rfl
  | cons a as ih =>
    rw [List.dropWhile_cons_of_pos (by simpa using h a (by simp))]
    exact ih fun x hx => h x (by simp [hx])

/-- With a positive limit, every loop iteration strictly shortens the text:
either the split index is positive (so dropping shortens), or it is 0, in
which case the text starts with a break character that `lstrip` removes. -/
theorem chunk_next_lt {text : List Char} {m : Nat} (hm : 1 ≤ m)
    (h : m < text.length) :
    ((text.drop ((splitIdx text m).getD m)).dropWhile isPySpace).length
      < text.length := by
  have hdw : ∀ l : List Char, (l.dropWhile isPySpace).length ≤ l.length :=
    fun l => (List.dropWhile_sublist (l := l) (p := isPySpace)).length_le
  cases hs : splitIdx text m with
  | none =>
    have := hdw (text.drop m)
    rw [List.length_drop] at this
    simp only [Option.getD_none]
    omega
  | some i =>
    rcases Nat.eq_zero_or_pos i with rfl | hi
    · have hhead := splitIdx_zero_head hs
      cases text with
      | nil => simp at h
      | cons a as =>
        have hspa : isPySpace a = true := by
          rcases hhead with hh | hh <;>
            simp only [List.head?_cons, Option.some.injEq] at hh <;>
            subst hh <;> decide
        simp only [Option.getD_some, List.drop_zero]
        rw [List.dropWhile_cons_of_pos hspa]
        have := hdw as
        simp
        omega
    · have := hdw (text.drop i)
      rw [List.length_drop] at this
      simp only [Option.getD_some]
      omega

/-- With a positive limit and enough fuel, every chunk the loop emits has
length at most the limit. -/
theorem chunk_go_chunks_le (fuel : Nat) :
    ∀ (text : List Char) (m : Nat), 1 ≤ m → text.length ≤ m + fuel →
      ∀ chunk ∈ chunk_go fuel text m, chunk.length ≤ m := by
  induction fuel with
  | zero =>
    intro text m hm hlen chunk hc
    rw [chunk_go_base 0 text m (by omega)] at hc
    rcases em (text.isEmpty = true) with he | he <;> simp [he] at hc
    · subst hc
      omega
  | succ f ih =>
    intro text m hm hlen chunk hc
    by_cases hsm : text.length ≤ m
    · rw [chunk_go_base _ _ _ hsm] at hc
      rcases em (text.isEmpty = true) with he | he <;> simp [he] at hc
      · subst hc
        omega
    · push_neg at hsm
      rw [chunk_go_succ f text m hsm] at hc
      rcases List.mem_cons.mp hc with rfl | hc2
      · have hsi : (splitIdx text m).getD m ≤ m := by
          cases hs : splitIdx text m with
          | none => simp
          | some i =>
            simp only [Option.getD_some]
            exact (splitIdx_lt hs).1.le
        rw [List.length_take]
        omega
      · refine ih _ m hm ?_ chunk hc2
        have := chunk_next_lt hm hsm
        omega

/-- One loop iteration on text with no strippable character at all: the
split is forced at the limit and `lstrip` removes nothing. -/
theorem chunk_go_succ_nospace (fuel : Nat) (text : List Char) (m : Nat)
    (h : m < text.length) (hsp : ∀ a ∈ text, isPySpace a = false) :
    chunk_go (fuel + 1) text m = text.take m :: chunk_go fuel (text.drop m) m := by
  have hsplit : splitIdx text m = none := by
    apply splitIdx_eq_none
    intro a ha
    have hfa := hsp a ((List.take_sublist m text).subset ha)
    constructor <;> rintro rfl <;> exact absurd hfa (by decide)
  rw [chunk_go_succ fuel text m h, hsplit]
  simp only [Option.getD_none]
  rw [dropWhile_eq_self_of_no_space
    fun a ha => hsp a ((List.drop_sublist m text).subset ha)]

/-- `lastIdxOf l c = none` means `c` does not occur in `l`. -/
theorem not_mem_of_lastIdxOf_eq_none {l : List Char} {c : Char}
    (h : lastIdxOf l c = none) : ∀ a ∈ l, a ≠ c := by
  induction l with
  | nil =>
    intro a ha
    simp at ha
  | cons a as ih =>
    intro x hx
    cases hr : lastIdxOf as c with
    | some j =>
      rw [lastIdxOf, hr] at h
      simp at h
    | none =>
      rw [lastIdxOf, hr] at h
      by_cases hac : a = c
      · rw [if_pos hac] at h
        simp at h
      · rcases List.mem_cons.mp hx with rfl | hx2
        · exact hac
        · exact ih hr x hx2

/-- A found last index is an occurrence of the character, and the greatest
one: nothing to its right matches. -/
theorem lastIdxOf_spec {l : List Char} {c : Char} {i : Nat}
    (h : lastIdxOf l c = some i) :
    l.get? i = some c ∧ ∀ j, i < j → j < l.length → l.get? j ≠ some c := by
  induction l generalizing i with
  | nil => simp [lastIdxOf] at h
  | cons a as ih =>
    cases hr : lastIdxOf as c with
    | some j =>
      rw [lastIdxOf, hr] at h
      have hij : j + 1 = i := by simpa using h
      subst hij
      obtain ⟨hocc, hmax⟩ := ih hr
      refine ⟨by simpa using hocc, ?_⟩
      intro k hk hklen
      cases k with
      | zero => omega
      | succ q =>
        have := hmax q (by omega) (by simpa using hklen)
        simpa using this
    | none =>
      rw [lastIdxOf, hr] at h
      by_cases hac : a = c
      · rw [if_pos hac] at h
        have h0 : (0 : Nat) = i := by simpa using h
        subst h0
        refine ⟨by simp [hac], ?_⟩
        intro k hk hklen
        cases k with
        | zero => omega
        | succ q =>
          intro hcontra
          rw [List.get?_cons_succ] at hcontra
          exact not_mem_of_lastIdxOf_eq_none hr c (List.get?_mem hcontra) rfl
      · rw [if_neg hac] at h
        simp at h

/-- A found `rindex` is an occurrence, and the last one before the
cut-off. -/
theorem rindex_spec_some {text : List Char} {c : Char} {m i : Nat}
    (h : rindex text c m = some i) :
    i < m ∧ i < text.length ∧ text.get? i = some c ∧
      ∀ j, i < j → j < m → j < text.length → text.get? j ≠ some c := by
  obtain ⟨hlt1, hlt2⟩ := rindex_lt h
  obtain ⟨hocc, hmax⟩ := lastIdxOf_spec h
  rw [List.get?_take hlt1] at hocc
  refine ⟨hlt1, hlt2, hocc, ?_⟩
  intro j hij hjm hjlen
  have := hmax j hij (by rw [List.length_take]; omega)
  rwa [List.get?_take hjm] at this

/-- `rindex` finds nothing exactly when the character is absent from the
window before the cut-off. -/
theorem rindex_spec_none {text : List Char} {c : Char} {m : Nat}
    (h : rindex text c m = none) :
    ∀ j, j < m → j < text.length → text.get? j ≠ some c := by
  intro j hjm hjlen hc
  have hmem : c ∈ text.take m := by
    apply List.get?_mem (n := j)
    rw [List.get?_take hjm]
    exact hc
  exact not_mem_of_lastIdxOf_eq_none h c hmem rfl

/-- A found split index is the LAST newline or space at-or-before the
limit: the character there is a break, and no later position inside the
window holds one. -/
theorem splitIdx_spec_some {text : List Char} {m i : Nat}
    (h : splitIdx text m = some i) :
    (text.get? i = some '\n' ∨ text.get? i = some ' ') ∧
      ∀ j, i < j → j < m → j < text.length →
        text.get? j ≠ some '\n' ∧ text.get? j ≠ some ' ' := by
  unfold splitIdx at h
  cases h1 : rindex text '\n' m with
  | none =>
    cases h2 : rindex text ' ' m with
    | none =>
      rw [h1, h2] at h
      simp [omax] at h
    | some k =>
      rw [h1, h2] at h
      have hk : k = i := by simpa [omax] using h
      subst hk
      obtain ⟨_, _, hocc, hmax⟩ := rindex_spec_some h2
      exact ⟨Or.inr hocc, fun j hij hjm hjlen =>
        ⟨rindex_spec_none h1 j hjm hjlen, hmax j hij hjm hjlen⟩⟩
  | some j1 =>
    cases h2 : rindex text ' ' m with
    | none =>
      rw [h1, h2] at h
      have hj : j1 = i := by simpa [omax] using h
      subst hj
      obtain ⟨_, _, hocc, hmax⟩ := rindex_spec_some h1
      exact ⟨Or.inl hocc, fun j hij hjm hjlen =>
        ⟨hmax j hij hjm hjlen, rindex_spec_none h2 j hjm hjlen⟩⟩
    | some k =>
      rw [h1, h2] at h
      have hmaxeq : max j1 k = i := by simpa [omax] using h
      obtain ⟨hj1m, hj1len, hocc1, hmax1⟩ := rindex_spec_some h1
      obtain ⟨hkm, hklen, hocc2, hmax2⟩ := rindex_spec_some h2
      constructor
      · rcases Nat.le_total j1 k with hle | hle
        · have hik : i = k := by omega
          rw [hik]
          exact Or.inr hocc2
        · have hik : i = j1 := by omega
          rw [hik]
          exact Or.inl hocc1
      · intro j hij hjm hjlen
        exact ⟨hmax1 j (by omega) hjm hjlen, hmax2 j (by omega) hjm hjlen⟩

/-- No split index is found exactly when no newline and no space occurs
inside the window. -/
theorem splitIdx_spec_none {text : List Char} {m : Nat}
    (h : splitIdx text m = none) :
    ∀ j, j < m → j < text.length →
      text.get? j ≠ some '\n' ∧ text.get? j ≠ some ' ' := by
  unfold splitIdx at h
  cases h1 : rindex text '\n' m with
  | none =>
    cases h2 : rindex text ' ' m with
    | none =>
      exact fun j hjm hjlen =>
        ⟨rindex_spec_none h1 j hjm hjlen, rindex_spec_none h2 j hjm hjlen⟩
    | some k =>
      rw [h1, h2] at h
      simp [omax] at h
  | some j1 =>
    cases h2 : rindex text ' ' m with
    | none =>
      rw [h1, h2] at h
      simp [omax] at h
    | some k =>
      rw [h1, h2] at h
      simp [omax] at h

/-- With a positive limit, any fuel at least the text's length computes the
same chunk list: the loop needs at most one fuel unit per character. -/
theorem chunk_go_fuel_irrel {m : Nat} (hm : 1 ≤ m) :
    ∀ (n : Nat) (text : List Char) (fuel fuel' : Nat), text.length ≤ n →
      text.length ≤ fuel → text.length ≤ fuel' →
      chunk_go fuel text m = chunk_go fuel' text m := by
  intro n
  induction n with
  | zero =>
    intro text fuel fuel' hn h1 h2
    rw [chunk_go_base fuel text m (by omega), chunk_go_base fuel' text m (by omega)]
  | succ k ih =>
    intro text fuel fuel' hn h1 h2
    by_cases hsm : text.length ≤ m
    · rw [chunk_go_base fuel text m hsm, chunk_go_base fuel' text m hsm]
    · push_neg at hsm
      cases fuel with
      | zero => omega
      | succ f =>
        cases fuel' with
        | zero => omega
        | succ g =>
          rw [chunk_go_succ f text m hsm, chunk_go_succ g text m hsm]
          have hlt := chunk_next_lt hm hsm
          congr 1
          exact ih _ f g (by omega) (by omega) (by omega)

/-- A text that already fits is returned whole (or not at all when
empty). -/
theorem chunk_string_base (text : List Char) (m : Nat) (h : text.length ≤ m) :
    chunk_string text m = if text.isEmpty then [] else [text] :=
  chunk_go_base text.length text m h

/-- One loop iteration of `chunk_string` on an over-long text: the first
chunk ends at the found split index (the limit itself when no break
exists), and the rest is chunked after stripping its leading whitespace. -/
theorem chunk_string_step (text : List Char) (m : Nat) (hm : 1 ≤ m)
    (h : m < text.length) :
    chunk_string text m =
      text.take ((splitIdx text m).getD m) ::
        chunk_string ((text.drop ((splitIdx text m).getD m)).dropWhile isPySpace) m := by
  unfold chunk_string
  obtain ⟨k, hk⟩ : ∃ k, text.length = k + 1 := ⟨text.length - 1, by omega⟩
  rw [hk, chunk_go_succ k text m h]
  have hlt := chunk_next_lt hm h
  congr 1
  exact chunk_go_fuel_irrel hm k _ k _ (by omega) (by omega) (le_refl _)

/-- C8 (amended): every chunk respects the size limit; a fitting text is
returned whole; an over-long text is split at the LAST newline or space
at-or-before the limit — force-split at the limit when no such break exists
— with the continuation chunked after stripping its leading whitespace, so
chunks appear in original order; and a 4500-character text free of ALL
characters Python's `lstrip` strips (not just newline and space) splits
with limit 2000 into exactly 3 force-split chunks whose concatenation is
the original text. -/
theorem c8_chunking (text : List Char) (m : Nat) (hm : 1 ≤ m) :
    (∀ chunk ∈ chunk_string text m, chunk.length ≤ m) ∧
    (text.length ≤ m → chunk_string text m = if text.isEmpty then [] else [text]) ∧
    (m < text.length →
      chunk_string text m =
        text.take ((splitIdx text m).getD m) ::
          chunk_string ((text.drop ((splitIdx text m).getD m)).dropWhile isPySpace) m) ∧
    (∀ i, splitIdx text m = some i →
      (text.get? i = some '\n' ∨ text.get? i = some ' ') ∧
      ∀ j, i < j → j < m → j < text.length →
        text.get? j ≠ some '\n' ∧ text.get? j ≠ some ' ') ∧
    (splitIdx text m = none →
      ∀ j, j < m → j < text.length →
        text.get? j ≠ some '\n' ∧ text.get? j ≠ some ' ') ∧
    (text.length = 4500 → m = 2000 → (∀ c ∈ text, isPySpace c = false) →
      chunk_string text m =
        [text.take 2000, (text.drop 2000).take 2000, text.drop 4000] ∧
      (chunk_string text m).length = 3 ∧
      (chunk_string text m).flatten = text) := by
  refine ⟨?_, fun hfit => chunk_string_base text m hfit,
    fun hover => chunk_string_step text m hm hover,
    fun i hi => splitIdx_spec_some hi,
    fun hnone => splitIdx_spec_none hnone, ?_⟩
  · intro chunk hc
    exact chunk_go_chunks_le text.length text m hm (by omega) chunk hc
  · intro h45 hm2 hsp
    subst hm2
    have hdd : (text.drop 2000).drop 2000 = text.drop 4000 := by
      rw [List.drop_drop]
    have hlen3 : (text.drop 4000).length = 500 := by
      rw [List.length_drop, h45]
    have heq : chunk_string text 2000 =
        [text.take 2000, (text.drop 2000).take 2000, text.drop 4000] := by
      unfold chunk_string
      rw [h45]
      rw [show (4500 : Nat) = 4499 + 1 from by norm_num]
      rw [chunk_go_succ_nospace 4499 text 2000 (by omega) hsp]
      have hsp2 : ∀ a ∈ text.drop 2000, isPySpace a = false :=
        fun a ha => hsp a ((List.drop_sublist 2000 text).subset ha)
      rw [show (4499 : Nat) = 4498 + 1 from by norm_num]
      rw [chunk_go_succ_nospace 4498 (text.drop 2000) 2000
        (by rw [List.length_drop, h45]; omega) hsp2]
      rw [hdd, chunk_go_base 4498 (text.drop 4000) 2000 (by omega)]
      have hne : text.drop 4000 ≠ [] := by
        intro hnil
        rw [hnil] at hlen3
        simp at hlen3
      rw [if_neg (by simpa [List.isEmpty_iff] using hne)]
    refine ⟨heq, by rw [heq]; rfl, ?_⟩
    rw [heq]
    have h1 : (text.drop 2000).take 2000 ++ text.drop 4000 = text.drop 2000 := by
      have := List.take_append_drop 2000 (text.drop 2000)
      rw [hdd] at this
      exact this
    simp only [List.flatten, List.append_nil]
    rw [h1, List.take_append_drop]

/-- C8 witness: a concrete 4500-character text of letters with limit 2000. -/
theorem c8_chunking_witness :
    (∀ chunk ∈ chunk_string (List.replicate 4500 'a') 2000, chunk.length ≤ 2000) ∧
    ((List.replicate 4500 'a').length ≤ 2000 →
      chunk_string (List.replicate 4500 'a') 2000 =
        if (List.replicate 4500 'a').isEmpty then [] else [List.replicate 4500 'a']) ∧
    (2000 < (List.replicate 4500 'a').length →
      chunk_string (List.replicate 4500 'a') 2000 =
        (List.replicate 4500 'a').take
            ((splitIdx (List.replicate 4500 'a') 2000).getD 2000) ::
          chunk_string
            (((List.replicate 4500 'a').drop
                ((splitIdx (List.replicate 4500 'a') 2000).getD 2000)).dropWhile
              isPySpace) 2000) ∧
    (∀ i, splitIdx (List.replicate 4500 'a') 2000 = some i →
      ((List.replicate 4500 'a').get? i = some '\n' ∨
        (List.replicate 4500 'a').get? i = some ' ') ∧
      ∀ j, i < j → j < 2000 → j < (List.replicate 4500 'a').length →
        (List.replicate 4500 'a').get? j ≠ some '\n' ∧
          (List.replicate 4500 'a').get? j ≠ some ' ') ∧
    (splitIdx (List.replicate 4500 'a') 2000 = none →
      ∀ j, j < 2000 → j < (List.replicate 4500 'a').length →
        (List.replicate 4500 'a').get? j ≠ some '\n' ∧
          (List.replicate 4500 'a').get? j ≠ some ' ') ∧
    ((List.replicate 4500 'a').length = 4500 → 2000 = 2000 →
      (∀ c ∈ List.replicate 4500 'a', isPySpace c = false) →
      chunk_string (List.replicate 4500 'a') 2000 =
        [(List.replicate 4500 'a').take 2000,
         ((List.replicate 4500 'a').drop 2000).take 2000,
         (List.replicate 4500 'a').drop 4000] ∧
      (chunk_string (List.replicate 4500 'a') 2000).length = 3 ∧
      (chunk_string (List.replicate 4500 'a') 2000).flatten
        = List.replicate 4500 'a') :=
  c8_chunking (List.replicate 4500 'a') 2000 (by omega)

/-- C8 counterexample: a 4500-character text of tabs has no newline and no
space, yet yields a single 2000-character chunk — `lstrip` deletes the whole
remainder after the first force-split — so neither "exactly 3 chunks" nor
"concatenation equals the original text" holds for it. -/
theorem c8_counterexample_tabs :
    (List.replicate 4500 '\t').length = 4500 ∧
    (∀ c ∈ List.replicate 4500 '\t', c ≠ '\n' ∧ c ≠ ' ') ∧
    chunk_string (List.replicate 4500 '\t') 2000 = [List.replicate 2000 '\t'] ∧
    (chunk_string (List.replicate 4500 '\t') 2000).length ≠ 3 ∧
    (chunk_string (List.replicate 4500 '\t') 2000).flatten
      ≠ List.replicate 4500 '\t' := by
  have hsplit : splitIdx (List.replicate 4500 '\t') 2000 = none := by
    apply splitIdx_eq_none
    intro a ha
    have : a = '\t' :=
      List.eq_of_mem_replicate ((List.take_sublist 2000 _).subset ha)
    subst this
    constructor <;> decide
  have heq : chunk_string (List.replicate 4500 '\t') 2000
      = [List.replicate 2000 '\t'] := by
    unfold chunk_string
    rw [List.length_replicate]
    rw [show (4500 : Nat) = 4499 + 1 from by norm_num]
    rw [chunk_go_succ 4499 _ 2000 (by rw [List.length_replicate]; omega)]
    rw [hsplit]
    simp only [Option.getD_none]
    rw [List.take_replicate, List.drop_replicate]
    rw [dropWhile_eq_nil_of_all_space
      (fun a ha => by rw [List.eq_of_mem_replicate ha]; decide)]
    rw [chunk_go_base 4499 [] 2000 (by simp)]
    norm_num
  refine ⟨by rw [List.length_replicate], fun c hc => ?_, heq, ?_, ?_⟩
  · rw [List.eq_of_mem_replicate hc]
    constructor <;> decide
  · rw [heq]
    simp only [List.length_cons, List.length_nil]
    omega
  · rw [heq]
    simp only [List.flatten_cons, List.flatten_nil, List.append_nil]
    intro hcon
    have hlencon := congrArg List.length hcon
    simp only [List.length_replicate] at hlencon
    omega

/-- C10: when a text longer than the limit has its only break character
(newline or space) among the first limit-many characters at position 0, the
split index is 0, so the first emitted chunk is `text[:0]` — the empty
string. -/
theorem c10_leading_space_empty_chunk (c0 : Char) (tl : List Char) (m : Nat)
    (hm : 1 ≤ m) (hlen : m < (c0 :: tl).length) (hc0 : c0 = ' ' ∨ c0 = '\n')
    (hrest : ∀ a ∈ tl.take (m - 1), a ≠ ' ' ∧ a ≠ '\n') :
    (chunk_string (c0 :: tl) m).head? = some [] := by
  have htake : (c0 :: tl).take m = c0 :: tl.take (m - 1) := by
    cases m with
    | zero => omega
    | succ k => simp [List.take]
  have hn : lastIdxOf (tl.take (m - 1)) '\n' = none :=
    lastIdxOf_eq_none fun a ha => (hrest a ha).2
  have hs : lastIdxOf (tl.take (m - 1)) ' ' = none :=
    lastIdxOf_eq_none fun a ha => (hrest a ha).1
  have hsplit : splitIdx (c0 :: tl) m = some 0 := by
    rcases hc0 with h | h
    · have r1 : rindex (c0 :: tl) '\n' m = none := by
        unfold rindex
        rw [htake]
        apply lastIdxOf_eq_none
        intro a ha
        rcases List.mem_cons.mp ha with rfl | ha2
        · rw [h]
          decide
        · exact (hrest a ha2).2
      have r2 : rindex (c0 :: tl) ' ' m = some 0 := by
        unfold rindex
        rw [htake, h]
        exact lastIdxOf_cons_self hs
      simp [splitIdx, r1, r2, omax]
    · have r1 : rindex (c0 :: tl) '\n' m = some 0 := by
        unfold rindex
        rw [htake, h]
        exact lastIdxOf_cons_self hn
      have r2 : rindex (c0 :: tl) ' ' m = none := by
        unfold rindex
        rw [htake]
        apply lastIdxOf_eq_none
        intro a ha
        rcases List.mem_cons.mp ha with rfl | ha2
        · rw [h]
          decide
        · exact (hrest a ha2).1
      simp [splitIdx, r1, r2, omax]
  unfold chunk_string
  rw [List.length_cons]
  rw [chunk_go_succ tl.length (c0 :: tl) m hlen, hsplit]
  simp

/-- C10 witness: the text " aaa" with limit 2 is longer than the limit and
its only break character in the window is the leading space; its first chunk
is the empty string. -/
theorem c10_leading_space_empty_chunk_witness :
    (chunk_string (' ' :: ['a', 'a', 'a']) 2).head? = some [] :=
  c10_leading_space_empty_chunk ' ' ['a', 'a', 'a'] 2 (by omega) (by decide)
    (Or.inl rfl) (by decide)
